import Mathlib

/-!
Shallow embedding of the `DriverAssignmentTracker` contract: an append-only
log of driver/vehicle assignment records (`assignments`) together with five
index mappings (`byBus`, `byDriver`, `byBusDriver`, `byBusTime`,
`byDriverTime`) maintained by `recordAssignment`, and the five public read
functions.

Modelling conventions:
* Solidity `string` values are modelled as Lean `String`s; the byte string a
  `string` contributes to `abi.encodePacked` is modelled by `strBytes`
  (codepoints of the characters — injective, as UTF-8 encoding is).
* `uint256` values are modelled as `Nat`; where a claim needs the fixed
  32-byte width of the packed encoding, the bound `t < 2 ^ 256` carried by
  every actual `uint256` appears as a hypothesis.
* `keccak256` is modelled as an injective function on byte strings
  (collision resistance), so an index mapping keyed by
  `keccak256(abi.encodePacked(...))` is modelled as keyed by the packed byte
  string itself.  All boundary-ambiguity phenomena live in `abi.encodePacked`
  and are reproduced faithfully by `packStrStr` / `packStrUint`.
* A Solidity `mapping` is a total function with a zero default: `[]` for
  `uint256[]` values, `0` for `uint256` values.
* Array reads revert when out of bounds; a reverting read is modelled as
  `none`, a succeeding one as `some`.
-/

/-- An assignment record as stored in the `assignments` array; the
`sequenceId` of a record is its position in the log and is not a field. -/
structure Assignment where
  busId : String
  origin : String
  destination : String
  driverId : String
  timestamp : Nat
  deriving Repr, DecidableEq, Inhabited

/-- The byte string a Solidity `string` contributes to `abi.encodePacked`. -/
def strBytes (s : String) : List Nat :=
  s.data.map Char.toNat

/-- Big-endian base-256 digits of `t`, `n` bytes wide (the low `n` bytes). -/
def bytesBE : Nat → Nat → List Nat
  | 0, _ => []
  | n + 1, t => (t / 256 ^ n % 256) :: bytesBE n t

/-- The 32 bytes a `uint256` contributes to `abi.encodePacked`. -/
def uint256Bytes (t : Nat) : List Nat :=
  bytesBE 32 t

/-- Preimage of `keccak256(abi.encodePacked(a, b))` for two strings: raw
concatenation with no boundary encoding. -/
def packStrStr (a b : String) : List Nat :=
  strBytes a ++ strBytes b

/-- Preimage of `keccak256(abi.encodePacked(a, t))` for a string and a
`uint256`: the byte string followed by a fixed-width 32-byte word. -/
def packStrUint (a : String) (t : Nat) : List Nat :=
  strBytes a ++ uint256Bytes t

/-- Contract storage: the append-only log and the five index mappings. -/
structure TrackerState where
  assignments : List Assignment
  byBus : String → List Nat
  byDriver : String → List Nat
  byBusDriver : List Nat → List Nat
  byBusTime : List Nat → Nat
  byDriverTime : List Nat → Nat

/-- Storage of a freshly deployed contract: empty log, zero-default maps. -/
def initialState : TrackerState :=
  { assignments := []
    byBus := fun _ => []
    byDriver := fun _ => []
    byBusDriver := fun _ => []
    byBusTime := fun _ => 0
    byDriverTime := fun _ => 0 }

/-- The `recordAssignment` write: append to the log, push the new id onto the
three multi-valued indices, overwrite the two point indices.  Returns the
assigned id (emitted in `AssignmentRecorded`) with the new state. -/
def recordAssignment (st : TrackerState) (busId origin destination driverId : String)
    (timestamp : Nat) : Nat × TrackerState :=
  let id := st.assignments.length
  let a : Assignment := ⟨busId, origin, destination, driverId, timestamp⟩
  (id,
    { assignments := st.assignments ++ [a]
      byBus := fun k => if k = busId then st.byBus k ++ [id] else st.byBus k
      byDriver := fun k => if k = driverId then st.byDriver k ++ [id] else st.byDriver k
      byBusDriver := fun k =>
        if k = packStrStr busId driverId then st.byBusDriver k ++ [id] else st.byBusDriver k
      byBusTime := fun k => if k = packStrUint busId timestamp then id else st.byBusTime k
      byDriverTime := fun k =>
        if k = packStrUint driverId timestamp then id else st.byDriverTime k })

/-- One write step, taking the would-be record as the bundle of arguments. -/
def step (st : TrackerState) (w : Assignment) : TrackerState :=
  (recordAssignment st w.busId w.origin w.destination w.driverId w.timestamp).2

/-- Run a sequence of `recordAssignment` calls from a given state. -/
def applyWrites (ws : List Assignment) (st : TrackerState) : TrackerState :=
  ws.foldl step st

/-- State reached by a sequence of `recordAssignment` calls on a fresh
contract; every reachable state is of this form, since `recordAssignment`
is the only state-changing function. -/
def runWrites (ws : List Assignment) : TrackerState :=
  applyWrites ws initialState

/-- Dereference a list of log positions; `none` models the revert that an
out-of-bounds `assignments[id]` read aborts the whole call with. -/
def lookupAll (log : List Assignment) : List Nat → Option (List Assignment)
  | [] => some []
  | i :: rest =>
    match log[i]?, lookupAll log rest with
    | some a, some l => some (a :: l)
    | _, _ => none

/-- `getDriversByBus`: dereference the `byBus` bucket in descending order. -/
def getDriversByBus (st : TrackerState) (busId : String) : Option (List Assignment) :=
  lookupAll st.assignments (st.byBus busId).reverse

/-- `getBusesByDriver`: dereference the `byDriver` bucket in descending order. -/
def getBusesByDriver (st : TrackerState) (driverId : String) : Option (List Assignment) :=
  lookupAll st.assignments (st.byDriver driverId).reverse

/-- `getAssignmentsByBusDriver`: dereference the `byBusDriver` bucket for the
packed pair key in descending order. -/
def getAssignmentsByBusDriver (st : TrackerState) (busId driverId : String) :
    Option (List Assignment) :=
  lookupAll st.assignments (st.byBusDriver (packStrStr busId driverId)).reverse

/-- `getDriverByBusTime`: point lookup through `byBusTime` (zero default),
then a single dereference of the log. -/
def getDriverByBusTime (st : TrackerState) (busId : String) (timestamp : Nat) :
    Option Assignment :=
  st.assignments[st.byBusTime (packStrUint busId timestamp)]?

/-- `getBusByDriverTime`: point lookup through `byDriverTime` (zero default),
then a single dereference of the log. -/
def getBusByDriverTime (st : TrackerState) (driverId : String) (timestamp : Nat) :
    Option Assignment :=
  st.assignments[st.byDriverTime (packStrUint driverId timestamp)]?

/-- Positions (absolute, starting at `n`) of the records in `ws` satisfying
`p`; the shape every multi-valued index bucket takes on a reachable state. -/
def idxWhere (p : Assignment → Bool) : List Assignment → Nat → List Nat
  | [], _ => []
  | w :: ws, n => if p w then n :: idxWhere p ws (n + 1) else idxWhere p ws (n + 1)

lemma applyWrites_cons (w : Assignment) (ws : List Assignment) (st : TrackerState) :
    applyWrites (w :: ws) st = applyWrites ws (step st w) := rfl

lemma applyWrites_append (xs ys : List Assignment) (st : TrackerState) :
    applyWrites (xs ++ ys) st = applyWrites ys (applyWrites xs st) := by
  simp [applyWrites, List.foldl_append]

lemma step_assignments (st : TrackerState) (w : Assignment) :
    (step st w).assignments = st.assignments ++ [w] := rfl

lemma applyWrites_assignments (ws : List Assignment) (st : TrackerState) :
    (applyWrites ws st).assignments = st.assignments ++ ws := by
  induction ws generalizing st with
  | nil => simp [applyWrites]
  | cons w ws ih =>
    rw [applyWrites_cons, ih, step_assignments, List.append_assoc]
    rfl

/-- The log of a reachable state is exactly the list of submitted records. -/
lemma runWrites_assignments (ws : List Assignment) :
    (runWrites ws).assignments = ws := by
  simpa [runWrites, initialState] using applyWrites_assignments ws initialState

lemma byBus_applyWrites (ws : List Assignment) (st : TrackerState) (v : String) :
    (applyWrites ws st).byBus v =
      st.byBus v ++ idxWhere (fun w => w.busId = v) ws st.assignments.length := by
  induction ws generalizing st with
  | nil => simp [applyWrites, idxWhere]
  | cons w ws ih =>
    rw [applyWrites_cons, ih, step_assignments]
    by_cases h : w.busId = v
    · simp [step, recordAssignment, idxWhere, h, List.append_assoc]
    · simp [step, recordAssignment, idxWhere, h, Ne.symm h]

lemma byDriver_applyWrites (ws : List Assignment) (st : TrackerState) (d : String) :
    (applyWrites ws st).byDriver d =
      st.byDriver d ++ idxWhere (fun w => w.driverId = d) ws st.assignments.length := by
  induction ws generalizing st with
  | nil => simp [applyWrites, idxWhere]
  | cons w ws ih =>
    rw [applyWrites_cons, ih, step_assignments]
    by_cases h : w.driverId = d
    · simp [step, recordAssignment, idxWhere, h, List.append_assoc]
    · simp [step, recordAssignment, idxWhere, h, Ne.symm h]

lemma byBusDriver_applyWrites (ws : List Assignment) (st : TrackerState) (k : List Nat) :
    (applyWrites ws st).byBusDriver k =
      st.byBusDriver k ++
        idxWhere (fun w => packStrStr w.busId w.driverId = k) ws st.assignments.length := by
  induction ws generalizing st with
  | nil => simp [applyWrites, idxWhere]
  | cons w ws ih =>
    rw [applyWrites_cons, ih, step_assignments]
    by_cases h : packStrStr w.busId w.driverId = k
    · simp [step, recordAssignment, idxWhere, h, List.append_assoc]
    · simp [step, recordAssignment, idxWhere, h, Ne.symm h]

lemma idxWhere_bounds (p : Assignment → Bool) (ws : List Assignment) (n : Nat) :
    ∀ i ∈ idxWhere p ws n, n ≤ i ∧ i < n + ws.length := by
  induction ws generalizing n with
  | nil => simp [idxWhere]
  | cons w ws ih =>
    intro i hi
    rw [idxWhere] at hi
    by_cases h : p w
    · rw [if_pos h] at hi
      rcases List.mem_cons.mp hi with rfl | hi
      · simp
      · have := ih (n + 1) i hi
        simp only [List.length_cons]
        omega
    · rw [if_neg h] at hi
      have := ih (n + 1) i hi
      simp only [List.length_cons]
      omega

lemma idxWhere_chain (p : Assignment → Bool) (ws : List Assignment) (n : Nat) :
    List.Chain' (· < ·) (idxWhere p ws n) := by
  induction ws generalizing n with
  | nil => simp [idxWhere]
  | cons w ws ih =>
    rw [idxWhere]
    by_cases h : p w
    · rw [if_pos h]
      refine List.chain'_cons'.mpr ⟨?_, ih (n + 1)⟩
      intro y hy
      have hm : y ∈ idxWhere p ws (n + 1) := List.mem_of_mem_head? hy
      have := idxWhere_bounds p ws (n + 1) y hm
      omega
    · rw [if_neg h]
      exact ih (n + 1)

lemma idxWhere_map_getD (p : Assignment → Bool) (ws pre : List Assignment) :
    (idxWhere p ws pre.length).map (fun i => (pre ++ ws).getD i default) = ws.filter p := by
  induction ws generalizing pre with
  | nil => simp [idxWhere]
  | cons w ws ih =>
    have hpre : pre ++ w :: ws = (pre ++ [w]) ++ ws := by simp
    have hlen : pre.length + 1 = (pre ++ [w]).length := by simp
    have hw : (pre ++ w :: ws).getD pre.length default = w := by
      simp [List.getD, List.getElem?_append_right (Nat.le_refl pre.length)]
    rw [idxWhere]
    by_cases h : p w
    · rw [if_pos h, List.map_cons, hw, hlen, hpre, ih (pre ++ [w]), List.filter_cons, if_pos h]
    · rw [if_neg h, hlen, hpre, ih (pre ++ [w]), List.filter_cons, if_neg (by simp [h])]

lemma lookupAll_eq_map (log : List Assignment) (l : List Nat)
    (hb : ∀ i ∈ l, i < log.length) :
    lookupAll log l = some (l.map (fun i => log.getD i default)) := by
  induction l with
  | nil => simp [lookupAll]
  | cons i rest ih =>
    have hi : i < log.length := hb i (List.mem_cons_self i rest)
    have hrest := ih fun j hj => hb j (List.mem_cons_of_mem i hj)
    rw [lookupAll, hrest]
    have : log[i]? = some (log.getD i default) := by
      simp [List.getD, List.getElem?_eq_getElem hi]
    rw [this]
    rfl

lemma byBusTime_applyWrites_miss (ws : List Assignment) (st : TrackerState) (k : List Nat)
    (h : ∀ w ∈ ws, packStrUint w.busId w.timestamp ≠ k) :
    (applyWrites ws st).byBusTime k = st.byBusTime k := by
  induction ws generalizing st with
  | nil => rfl
  | cons w ws ih =>
    rw [applyWrites_cons, ih _ fun w' hw' => h w' (List.mem_cons_of_mem w hw')]
    simp [step, recordAssignment, Ne.symm (h w (List.mem_cons_self w ws))]

lemma byDriverTime_applyWrites_miss (ws : List Assignment) (st : TrackerState) (k : List Nat)
    (h : ∀ w ∈ ws, packStrUint w.driverId w.timestamp ≠ k) :
    (applyWrites ws st).byDriverTime k = st.byDriverTime k := by
  induction ws generalizing st with
  | nil => rfl
  | cons w ws ih =>
    rw [applyWrites_cons, ih _ fun w' hw' => h w' (List.mem_cons_of_mem w hw')]
    simp [step, recordAssignment, Ne.symm (h w (List.mem_cons_self w ws))]

lemma step_byBusTime_self (st : TrackerState) (w : Assignment) :
    (step st w).byBusTime (packStrUint w.busId w.timestamp) = st.assignments.length := by
  simp [step, recordAssignment]

lemma step_byDriverTime_self (st : TrackerState) (w : Assignment) :
    (step st w).byDriverTime (packStrUint w.driverId w.timestamp) = st.assignments.length := by
  simp [step, recordAssignment]

lemma byBus_runWrites (ws : List Assignment) (v : String) :
    (runWrites ws).byBus v = idxWhere (fun w => w.busId = v) ws 0 := by
  simpa [initialState] using byBus_applyWrites ws initialState v

lemma byDriver_runWrites (ws : List Assignment) (d : String) :
    (runWrites ws).byDriver d = idxWhere (fun w => w.driverId = d) ws 0 := by
  simpa [initialState] using byDriver_applyWrites ws initialState d

lemma byBusDriver_runWrites (ws : List Assignment) (k : List Nat) :
    (runWrites ws).byBusDriver k =
      idxWhere (fun w => packStrStr w.busId w.driverId = k) ws 0 := by
  simpa [initialState] using byBusDriver_applyWrites ws initialState k

lemma lookupAll_idxWhere (ws : List Assignment) (p : Assignment → Bool) :
    lookupAll ws (idxWhere p ws 0).reverse = some ((ws.filter p).reverse) := by
  have hb : ∀ i ∈ (idxWhere p ws 0).reverse, i < ws.length := by
    intro i hi
    have := idxWhere_bounds p ws 0 i (List.mem_reverse.mp hi)
    omega
  rw [lookupAll_eq_map ws _ hb, List.map_reverse]
  have := idxWhere_map_getD p ws []
  simp only [List.length_nil, List.nil_append] at this
  rw [this]

lemma getDriversByBus_runWrites (ws : List Assignment) (v : String) :
    getDriversByBus (runWrites ws) v =
      some ((ws.filter (fun w => w.busId = v)).reverse) := by
  rw [getDriversByBus, byBus_runWrites, runWrites_assignments, lookupAll_idxWhere]

lemma getBusesByDriver_runWrites (ws : List Assignment) (d : String) :
    getBusesByDriver (runWrites ws) d =
      some ((ws.filter (fun w => w.driverId = d)).reverse) := by
  rw [getBusesByDriver, byDriver_runWrites, runWrites_assignments, lookupAll_idxWhere]

lemma getAssignmentsByBusDriver_runWrites (ws : List Assignment) (v d : String) :
    getAssignmentsByBusDriver (runWrites ws) v d =
      some ((ws.filter (fun w => packStrStr w.busId w.driverId = packStrStr v d)).reverse) := by
  rw [getAssignmentsByBusDriver, byBusDriver_runWrites, runWrites_assignments,
    lookupAll_idxWhere]

lemma getElem_append_middle (xs ys : List Assignment) (w : Assignment) :
    (xs ++ w :: ys)[xs.length]? = some w := by
  rw [List.getElem?_append_right (Nat.le_refl _)]
  simp

lemma strBytes_inj {a b : String} (h : strBytes a = strBytes b) : a = b := by
  apply String.ext
  have hc : Function.Injective Char.toNat := by
    intro c1 c2 hc
    exact Char.ext (UInt32.ext hc)
  exact List.map_injective_iff.mpr hc h

lemma bytesBE_length (n t : Nat) : (bytesBE n t).length = n := by
  induction n generalizing t with
  | zero => rfl
  | succ n ih => simp [bytesBE, ih]

lemma bytesBE_mod {n t1 t2 : Nat} (h : bytesBE n t1 = bytesBE n t2) :
    t1 % 256 ^ n = t2 % 256 ^ n := by
  induction n generalizing t1 t2 with
  | zero => simp [Nat.mod_one]
  | succ n ih =>
    rw [bytesBE, bytesBE, List.cons.injEq] at h
    have hhead := h.1
    have htail := ih h.2
    have e1 : t1 % 256 ^ (n + 1) = t1 % 256 ^ n + 256 ^ n * (t1 / 256 ^ n % 256) := by
      rw [pow_succ, Nat.mod_mul]
    have e2 : t2 % 256 ^ (n + 1) = t2 % 256 ^ n + 256 ^ n * (t2 / 256 ^ n % 256) := by
      rw [pow_succ, Nat.mod_mul]
    rw [e1, e2, hhead, htail]

lemma pow256_32 : 256 ^ 32 = 2 ^ 256 := by norm_num

lemma packStrUint_inj {a b : String} {t1 t2 : Nat} (h1 : t1 < 2 ^ 256) (h2 : t2 < 2 ^ 256)
    (h : packStrUint a t1 = packStrUint b t2) : a = b ∧ t1 = t2 := by
  have hlen : (uint256Bytes t1).length = (uint256Bytes t2).length := by
    simp [uint256Bytes, bytesBE_length]
  have hsplit := List.append_inj' h hlen
  refine ⟨strBytes_inj hsplit.1, ?_⟩
  have hmod := bytesBE_mod (n := 32) hsplit.2
  rwa [Nat.mod_eq_of_lt (pow256_32 ▸ h1), Nat.mod_eq_of_lt (pow256_32 ▸ h2)] at hmod

/-- Claim C1.  The claim states that the composed pair key separates
`("12","3")` from `("1","23")` and `("A","BC")` from `("AB","C")`, so that
distinct (vehicleId, driverId) pairs never share a by-vehicle-and-driver
bucket.  The code FAILS this: `abi.encodePacked` of two dynamic strings is
raw concatenation with no boundary encoding, so both pairs of keys coincide
and the two writes land in the same `byBusDriver` bucket — the query for
pair `("1","23")` returns the record of pair `("12","3")` as well. -/
theorem C1_pair_key_collision :
    packStrStr "12" "3" = packStrStr "1" "23" ∧
    packStrStr "A" "BC" = packStrStr "AB" "C" ∧
    ("12", "3") ≠ (("1" : String), ("23" : String)) ∧
    getAssignmentsByBusDriver
        (runWrites [⟨"12", "o1", "e1", "3", 1⟩, ⟨"1", "o2", "e2", "23", 2⟩]) "1" "23" =
      some [⟨"1", "o2", "e2", "23", 2⟩, ⟨"12", "o1", "e1", "3", 1⟩] := by
  decide

/-- Claim C2.  The claim states that a point lookup on a never-recorded
(vehicleId, timestamp) — resp. (driverId, timestamp) — pair fails with
`NotFound`.  The code FAILS this: the `byBusTime` / `byDriverTime` mappings
return the default `0` for an unset key, which is dereferenced into the log,
so with a non-empty log the lookup silently returns the record with
sequenceId 0 instead of any error. -/
theorem C2_missing_key_returns_record_zero :
    getDriverByBusTime (runWrites [⟨"bus-7", "Depot", "Mall", "drv-2", 1000⟩]) "bus-X" 77 =
      some ⟨"bus-7", "Depot", "Mall", "drv-2", 1000⟩ ∧
    getBusByDriverTime (runWrites [⟨"bus-7", "Depot", "Mall", "drv-2", 1000⟩]) "drv-Z" 77 =
      some ⟨"bus-7", "Depot", "Mall", "drv-2", 1000⟩ := by
  decide

/-- Claim C3.  If two records are appended with the same (vehicleId,
timestamp) — and no later write touches that point-index key — then
`getDriverByBusTime` at that pair returns the record of the later append,
while the superseded earlier record is still contained in the result of
`getDriversByBus` for that vehicle. -/
theorem C3_point_overwrite (ws0 ws1 ws2 : List Assignment) (w1 w2 : Assignment)
    (hb : w1.busId = w2.busId) (ht : w1.timestamp = w2.timestamp)
    (h2 : ∀ w ∈ ws2, packStrUint w.busId w.timestamp ≠ packStrUint w2.busId w2.timestamp) :
    getDriverByBusTime (runWrites (ws0 ++ w1 :: ws1 ++ w2 :: ws2)) w2.busId w2.timestamp =
      some w2 ∧
    w1 ∈ (getDriversByBus (runWrites (ws0 ++ w1 :: ws1 ++ w2 :: ws2)) w2.busId).getD [] := by
  have hsplit : ws0 ++ w1 :: ws1 ++ w2 :: ws2 = (ws0 ++ w1 :: ws1) ++ w2 :: ws2 := by
    simp
  constructor
  · have hstate : runWrites (ws0 ++ w1 :: ws1 ++ w2 :: ws2) =
        applyWrites ws2 (step (runWrites (ws0 ++ w1 :: ws1)) w2) := by
      rw [hsplit, runWrites, applyWrites_append, applyWrites_cons]
      rfl
    have hkey : (runWrites (ws0 ++ w1 :: ws1 ++ w2 :: ws2)).byBusTime
        (packStrUint w2.busId w2.timestamp) = (ws0 ++ w1 :: ws1).length := by
      rw [hstate, byBusTime_applyWrites_miss _ _ _ h2, step_byBusTime_self,
        runWrites_assignments]
    rw [getDriverByBusTime, hkey, runWrites_assignments, hsplit, getElem_append_middle]
  · rw [getDriversByBus_runWrites]
    simp only [Option.getD_some, List.mem_reverse, List.mem_filter]
    constructor
    · simp [List.mem_append]
    · simp [hb]

/-- Concrete witness for the point-overwrite theorem: two writes sharing
vehicle `"b"` and timestamp `5`, with differing drivers. -/
theorem C3_point_overwrite_witness :
    getDriverByBusTime
        (runWrites ([] ++ (⟨"b", "x", "y", "d1", 5⟩ : Assignment) ::
          ([] ++ (⟨"b", "u", "v", "d2", 5⟩ : Assignment) :: [])))
        (Assignment.busId ⟨"b", "u", "v", "d2", 5⟩)
        (Assignment.timestamp ⟨"b", "u", "v", "d2", 5⟩) =
      some ⟨"b", "u", "v", "d2", 5⟩ ∧
    (⟨"b", "x", "y", "d1", 5⟩ : Assignment) ∈
      (getDriversByBus
        (runWrites ([] ++ (⟨"b", "x", "y", "d1", 5⟩ : Assignment) ::
          ([] ++ (⟨"b", "u", "v", "d2", 5⟩ : Assignment) :: [])))
        (Assignment.busId ⟨"b", "u", "v", "d2", 5⟩)).getD [] :=
  C3_point_overwrite [] [] [] ⟨"b", "x", "y", "d1", 5⟩ ⟨"b", "u", "v", "d2", 5⟩
    rfl rfl (by simp)

/-- Claim C4 counterexample.  The claim asserts that the three list queries
return exactly the records whose queried fields match; for
`getAssignmentsByBusDriver` that is false: after recording the pairs
`("12","3")` and `("1","23")`, the query for the pair `("1","23")` also
returns the record whose vehicleId is `"12"`, because the packed pair keys
coincide. -/
theorem C4_pair_exact_match_counterexample :
    getAssignmentsByBusDriver
        (runWrites [⟨"12", "p1", "q1", "3", 1⟩, ⟨"1", "p2", "q2", "23", 2⟩]) "1" "23" =
      some [⟨"1", "p2", "q2", "23", 2⟩, ⟨"12", "p1", "q1", "3", 1⟩] ∧
    (⟨"12", "p1", "q1", "3", 1⟩ : Assignment).busId ≠ "1" := by
  decide

/-- Claim C4 as amended.  For every vehicleId with at least two recorded
assignments, `getDriversByBus` returns exactly the records whose vehicleId
matches, as the reverse of the insertion-ordered index list, with strictly
decreasing sequenceIds; `getBusesByDriver` likewise for driverId.
`getAssignmentsByBusDriver` returns — again reversed and strictly
decreasing — exactly the records whose packed concatenation
vehicleId‖driverId equals that of the query, which coincides with exact
(vehicleId, driverId) matching only in the absence of concatenation
collisions. -/
theorem C4_descending_order (ws : List Assignment) (v d : String)
    (htwo : 2 ≤ (ws.filter (fun w => w.busId = v)).length) :
    getDriversByBus (runWrites ws) v =
      some ((ws.filter (fun w => w.busId = v)).reverse) ∧
    getBusesByDriver (runWrites ws) d =
      some ((ws.filter (fun w => w.driverId = d)).reverse) ∧
    getAssignmentsByBusDriver (runWrites ws) v d =
      some ((ws.filter (fun w => packStrStr w.busId w.driverId = packStrStr v d)).reverse) ∧
    List.Chain' (· > ·) (((runWrites ws).byBus v).reverse) ∧
    List.Chain' (· > ·) (((runWrites ws).byDriver d).reverse) ∧
    List.Chain' (· > ·) (((runWrites ws).byBusDriver (packStrStr v d)).reverse) := by
  refine ⟨getDriversByBus_runWrites ws v, getBusesByDriver_runWrites ws d,
    getAssignmentsByBusDriver_runWrites ws v d, ?_, ?_, ?_⟩
  · rw [byBus_runWrites, List.chain'_reverse]
    exact idxWhere_chain _ ws 0
  · rw [byDriver_runWrites, List.chain'_reverse]
    exact idxWhere_chain _ ws 0
  · rw [byBusDriver_runWrites, List.chain'_reverse]
    exact idxWhere_chain _ ws 0

/-- Concrete witness for the descending-order theorem: vehicle `"b"` has two
recorded assignments. -/
theorem C4_descending_order_witness :
    getDriversByBus (runWrites [⟨"b", "x", "y", "d1", 5⟩, ⟨"b", "u", "v", "d2", 6⟩]) "b" =
      some (([(⟨"b", "x", "y", "d1", 5⟩ : Assignment),
        ⟨"b", "u", "v", "d2", 6⟩].filter (fun w => w.busId = "b")).reverse) ∧
    getBusesByDriver (runWrites [⟨"b", "x", "y", "d1", 5⟩, ⟨"b", "u", "v", "d2", 6⟩]) "d1" =
      some (([(⟨"b", "x", "y", "d1", 5⟩ : Assignment),
        ⟨"b", "u", "v", "d2", 6⟩].filter (fun w => w.driverId = "d1")).reverse) ∧
    getAssignmentsByBusDriver
        (runWrites [⟨"b", "x", "y", "d1", 5⟩, ⟨"b", "u", "v", "d2", 6⟩]) "b" "d1" =
      some (([(⟨"b", "x", "y", "d1", 5⟩ : Assignment),
        ⟨"b", "u", "v", "d2", 6⟩].filter
          (fun w => packStrStr w.busId w.driverId = packStrStr "b" "d1")).reverse) ∧
    List.Chain' (· > ·)
      (((runWrites [⟨"b", "x", "y", "d1", 5⟩, ⟨"b", "u", "v", "d2", 6⟩]).byBus "b").reverse) ∧
    List.Chain' (· > ·)
      (((runWrites [⟨"b", "x", "y", "d1", 5⟩,
        ⟨"b", "u", "v", "d2", 6⟩]).byDriver "d1").reverse) ∧
    List.Chain' (· > ·)
      (((runWrites [⟨"b", "x", "y", "d1", 5⟩,
        ⟨"b", "u", "v", "d2", 6⟩]).byBusDriver (packStrStr "b" "d1")).reverse) :=
  C4_descending_order [⟨"b", "x", "y", "d1", 5⟩, ⟨"b", "u", "v", "d2", 6⟩] "b" "d1"
    (by decide)

/-- Claim C5.  Every record appended by `recordAssignment` is contained in
the result of `getDriversByBus` for its vehicleId, of `getBusesByDriver`
for its driverId, and of `getAssignmentsByBusDriver` for its (vehicleId,
driverId) pair: each write extends all three multi-valued indices with the
new sequenceId. -/
theorem C5_index_completeness (ws : List Assignment) (r : Assignment) (hr : r ∈ ws) :
    r ∈ (getDriversByBus (runWrites ws) r.busId).getD [] ∧
    r ∈ (getBusesByDriver (runWrites ws) r.driverId).getD [] ∧
    r ∈ (getAssignmentsByBusDriver (runWrites ws) r.busId r.driverId).getD [] := by
  simp [getDriversByBus_runWrites, getBusesByDriver_runWrites,
    getAssignmentsByBusDriver_runWrites, List.mem_reverse, List.mem_filter, hr]

/-- Concrete witness for index completeness: the second of two writes. -/
theorem C5_index_completeness_witness :
    (⟨"b2", "u", "v", "d2", 6⟩ : Assignment) ∈
      (getDriversByBus (runWrites [⟨"b1", "x", "y", "d1", 5⟩, ⟨"b2", "u", "v", "d2", 6⟩])
        (Assignment.busId ⟨"b2", "u", "v", "d2", 6⟩)).getD [] ∧
    (⟨"b2", "u", "v", "d2", 6⟩ : Assignment) ∈
      (getBusesByDriver (runWrites [⟨"b1", "x", "y", "d1", 5⟩, ⟨"b2", "u", "v", "d2", 6⟩])
        (Assignment.driverId ⟨"b2", "u", "v", "d2", 6⟩)).getD [] ∧
    (⟨"b2", "u", "v", "d2", 6⟩ : Assignment) ∈
      (getAssignmentsByBusDriver
        (runWrites [⟨"b1", "x", "y", "d1", 5⟩, ⟨"b2", "u", "v", "d2", 6⟩])
        (Assignment.busId ⟨"b2", "u", "v", "d2", 6⟩)
        (Assignment.driverId ⟨"b2", "u", "v", "d2", 6⟩)).getD [] :=
  C5_index_completeness [⟨"b1", "x", "y", "d1", 5⟩, ⟨"b2", "u", "v", "d2", 6⟩]
    ⟨"b2", "u", "v", "d2", 6⟩ (by decide)

/-- Claim C6.  The log is append-only: once a record sits at a sequenceId,
any further sequence of writes leaves that position — and every field of the
record stored there — unchanged, and the stored record is the one that was
submitted. -/
theorem C6_append_only (ws more : List Assignment) (k : Nat) (hk : k < ws.length) :
    (runWrites (ws ++ more)).assignments[k]? = (runWrites ws).assignments[k]? ∧
    (runWrites ws).assignments[k]? = some (ws.get ⟨k, hk⟩) := by
  rw [runWrites_assignments, runWrites_assignments, List.getElem?_append, if_pos hk]
  exact ⟨rfl, by simp [List.getElem?_eq_getElem hk]⟩

/-- Concrete witness for append-only: position 0 survives a later write. -/
theorem C6_append_only_witness :
    (runWrites ([⟨"b1", "x", "y", "d1", 5⟩] ++ [⟨"b2", "u", "v", "d2", 6⟩])).assignments[0]? =
      (runWrites [⟨"b1", "x", "y", "d1", 5⟩]).assignments[0]? ∧
    (runWrites [(⟨"b1", "x", "y", "d1", 5⟩ : Assignment)]).assignments[0]? =
      some ([(⟨"b1", "x", "y", "d1", 5⟩ : Assignment)].get ⟨0, by decide⟩) :=
  C6_append_only [⟨"b1", "x", "y", "d1", 5⟩] [⟨"b2", "u", "v", "d2", 6⟩] 0 (by decide)

/-- Claim C7.  SequenceIds are assigned uniquely and strictly increasingly
from 0: a `recordAssignment` call made after `n` prior writes — on any
inputs — assigns sequenceId `n`, which equals the number of previously
appended records. -/
theorem C7_sequence_id_assignment (ws : List Assignment)
    (busId origin destination driverId : String) (timestamp : Nat) :
    (recordAssignment (runWrites ws) busId origin destination driverId timestamp).1 =
      ws.length ∧
    (runWrites ws).assignments.length = ws.length := by
  have h : (runWrites ws).assignments.length = ws.length := by rw [runWrites_assignments]
  exact ⟨h, h⟩

/-- Claim C8.  For keys never touched by any write, the three multi-valued
queries succeed with the empty list (the mapping's empty-array default),
rather than failing: for `getDriversByBus` and `getBusesByDriver` this
holds for any unrecorded identifier, for `getAssignmentsByBusDriver` for
any query whose packed pair key differs from that of every write. -/
theorem C8_unknown_key_empty_list (ws : List Assignment) (v d vp dp : String)
    (hv : ∀ w ∈ ws, w.busId ≠ v) (hd : ∀ w ∈ ws, w.driverId ≠ d)
    (hp : ∀ w ∈ ws, packStrStr w.busId w.driverId ≠ packStrStr vp dp) :
    getDriversByBus (runWrites ws) v = some [] ∧
    getBusesByDriver (runWrites ws) d = some [] ∧
    getAssignmentsByBusDriver (runWrites ws) vp dp = some [] := by
  have h1 : ws.filter (fun w => w.busId = v) = [] := by
    rw [List.filter_eq_nil_iff]
    intro a ha
    simp [hv a ha]
  have h2 : ws.filter (fun w => w.driverId = d) = [] := by
    rw [List.filter_eq_nil_iff]
    intro a ha
    simp [hd a ha]
  have h3 : ws.filter (fun w => packStrStr w.busId w.driverId = packStrStr vp dp) = [] := by
    rw [List.filter_eq_nil_iff]
    intro a ha
    simp [hp a ha]
  rw [getDriversByBus_runWrites, getBusesByDriver_runWrites,
    getAssignmentsByBusDriver_runWrites, h1, h2, h3]
  exact ⟨rfl, rfl, rfl⟩

/-- Concrete witness for the empty-list result on unknown keys. -/
theorem C8_unknown_key_empty_list_witness :
    getDriversByBus (runWrites [⟨"b", "o", "e", "dr", 5⟩]) "x" = some [] ∧
    getBusesByDriver (runWrites [⟨"b", "o", "e", "dr", 5⟩]) "y" = some [] ∧
    getAssignmentsByBusDriver (runWrites [⟨"b", "o", "e", "dr", 5⟩]) "p" "q" = some [] :=
  C8_unknown_key_empty_list [⟨"b", "o", "e", "dr", 5⟩] "x" "y" "p" "q"
    (by decide) (by decide) (by decide)

/-- Claim C9.  On a state with a non-empty log, a point lookup with a
(vehicleId, timestamp) — resp. (driverId, timestamp) — pair that was never
recorded returns the record with sequenceId 0, the mapping's default `0`
dereferenced into the log; on an empty log the same dereference of position
0 is out of bounds and the call fails.  Both cases are `ws[0]?`. -/
theorem C9_unset_point_key_reads_position_zero (ws : List Assignment) (v d : String)
    (t : Nat) (hbound : ∀ w ∈ ws, w.timestamp < 2 ^ 256) (ht : t < 2 ^ 256)
    (hv : ∀ w ∈ ws, ¬(w.busId = v ∧ w.timestamp = t))
    (hd : ∀ w ∈ ws, ¬(w.driverId = d ∧ w.timestamp = t)) :
    getDriverByBusTime (runWrites ws) v t = ws[0]? ∧
    getBusByDriverTime (runWrites ws) d t = ws[0]? := by
  have hmv : ∀ w ∈ ws, packStrUint w.busId w.timestamp ≠ packStrUint v t := by
    intro w hw he
    exact hv w hw (packStrUint_inj (hbound w hw) ht he)
  have hmd : ∀ w ∈ ws, packStrUint w.driverId w.timestamp ≠ packStrUint d t := by
    intro w hw he
    exact hd w hw (packStrUint_inj (hbound w hw) ht he)
  constructor
  · rw [getDriverByBusTime, runWrites, byBusTime_applyWrites_miss ws initialState _ hmv,
      applyWrites_assignments]
    simp [initialState]
  · rw [getBusByDriverTime, runWrites, byDriverTime_applyWrites_miss ws initialState _ hmd,
      applyWrites_assignments]
    simp [initialState]

/-- Concrete witness: with one record in the log, unrecorded (vehicle, time)
and (driver, time) lookups both return that record, with sequenceId 0. -/
theorem C9_unset_point_key_reads_position_zero_witness :
    getDriverByBusTime (runWrites [⟨"b", "o", "e", "dr", 5⟩]) "x" 6 =
      [(⟨"b", "o", "e", "dr", 5⟩ : Assignment)][0]? ∧
    getBusByDriverTime (runWrites [⟨"b", "o", "e", "dr", 5⟩]) "y" 6 =
      [(⟨"b", "o", "e", "dr", 5⟩ : Assignment)][0]? :=
  C9_unset_point_key_reads_position_zero [⟨"b", "o", "e", "dr", 5⟩] "x" "y" 6
    (by intro w hw; fin_cases hw; norm_num) (by norm_num)
    (by decide) (by decide)

/-- Claim C10.  The keys of the two time-based point indices are
collision-free: the packed encoding appends the timestamp as a fixed-width
32-byte word after the identifier's bytes, so (with the hash modelled as
injective) two (identifier, timestamp) inputs share a key only if both the
identifiers and the timestamps are equal — unlike the vehicle+driver pair
key. -/
theorem C10_time_point_key_injective (id1 id2 : String) (t1 t2 : Nat)
    (h1 : t1 < 2 ^ 256) (h2 : t2 < 2 ^ 256)
    (h : packStrUint id1 t1 = packStrUint id2 t2) : id1 = id2 ∧ t1 = t2 :=
  packStrUint_inj h1 h2 h

/-- Concrete witness for time-key injectivity at identifier `"a"`, time 3. -/
theorem C10_time_point_key_injective_witness : ("a" : String) = "a" ∧ (3 : Nat) = 3 :=
  C10_time_point_key_injective "a" "a" 3 3 (by norm_num) (by norm_num) rfl
